import Mathlib

/-!
Verification development for the scikit-criteria fork.

We give a shallow embedding of the core data model (`skcriteria/data.py`)
and of the simple ranking methods (`skcriteria/madm/simple.py`), and prove
the specified properties about them.  Numeric values are modelled by `ℚ`
(the code uses IEEE floats only as a container for exact decimal inputs in
the properties considered here).  Python exceptions are modelled by
`Except String`.
-/

set_option maxHeartbeats 1000000

/-- The `Objective` enum of `skcriteria/data.py`: `MIN = -1`, `MAX = 1`. -/
inductive Objective where
  | MAX
  | MIN
deriving DecidableEq, Repr

/-- The numeric value of each enum member (`MIN = -1`, `MAX = 1`). -/
def Objective.value : Objective → Int
  | .MAX => 1
  | .MIN => -1

/-- `Objective.__str__` returns `self.name`. -/
def Objective.name : Objective → String
  | .MAX => "MAX"
  | .MIN => "MIN"

/-- `Objective._MAX_STR = "▲"`. -/
def Objective.MAX_STR : String := "▲"

/-- `Objective._MIN_STR = "▼"`. -/
def Objective.MIN_STR : String := "▼"

/-- A Python value that can be passed as an objective alias: an `Objective`
member, a string, an int, the builtins `max`/`min`, or the numpy reductions
(`np.amax` is the same function object as `np.max`, and `np.amin` the same
as `np.min`, so each pair is one token here; `np.nanmax`/`np.nanmin` are
distinct). -/
inductive PyVal where
  | obj (o : Objective)
  | str (s : String)
  | int (n : Int)
  | pyMax
  | pyMin
  | npMax
  | npNanmax
  | npMin
  | npNanmin
deriving DecidableEq, Repr

/-- `Objective._MAX_ALIASES`: inside the enum class body `MAX` denotes the
raw int `1`, so the frozenset holds `{1, "▲", max, np.max, np.nanmax,
np.amax, "max", "maximize", "+", ">"}` (with `np.amax ≡ np.max`). -/
def Objective.MAX_ALIASES : List PyVal :=
  [.int 1, .str Objective.MAX_STR, .pyMax, .npMax, .npNanmax,
   .str "max", .str "maximize", .str "+", .str ">"]

/-- `Objective._MIN_ALIASES`: `{-1, "▼", min, np.min, np.nanmin, np.amin,
"min", "minimize", "<", "-"}` (with `np.amin ≡ np.min`). -/
def Objective.MIN_ALIASES : List PyVal :=
  [.int (-1), .str Objective.MIN_STR, .pyMin, .npMin, .npNanmin,
   .str "min", .str "minimize", .str "<", .str "-"]

/-- Python `str.lower()`, modelled by lowercasing every character (the
aliases involved are ASCII, where this agrees with Python). -/
def strLower (s : String) : String := String.mk (s.data.map Char.toLower)

/-- The `alias.lower()` normalisation applied to string aliases in
`Objective.construct_from_alias`; non-strings pass through. -/
def PyVal.lower : PyVal → PyVal
  | .str s => .str (strLower s)
  | v => v

/-- `Objective.construct_from_alias`: an `Objective` is returned as is;
otherwise strings are lowercased, the MAX alias set is checked, then the
MIN alias set, and any other value raises
`ValueError("Invalid criteria objective ...")`. -/
def Objective.construct_from_alias (al : PyVal) : Except String Objective :=
  match al with
  | .obj o => Except.ok o
  | a =>
      if a.lower ∈ Objective.MAX_ALIASES then Except.ok Objective.MAX
      else if a.lower ∈ Objective.MIN_ALIASES then Except.ok Objective.MIN
      else Except.error "Invalid criteria objective"

/-- `Objective.to_string`: returns the directional glyph by membership of
`self.value` in the alias sets (falling through to Python `None` if
neither matched, modelled by `Option`). -/
def Objective.to_string (o : Objective) : Option String :=
  if PyVal.int o.value ∈ Objective.MIN_ALIASES then some Objective.MIN_STR
  else if PyVal.int o.value ∈ Objective.MAX_ALIASES then some Objective.MAX_STR
  else none

/-- Claim C9: for every `Objective` value, the display-string conversion
`to_string` yields the directional glyph: "▲" for `MAX` and "▼" for
`MIN`. -/
theorem objective_to_string_glyph :
    Objective.to_string Objective.MAX = some "▲" ∧
      Objective.to_string Objective.MIN = some "▼" := by
  constructor <;> decide

/-- Helper: the max-then-min conditional of `construct_from_alias` returns
an `ok` value iff one of the two membership tests holds. -/
theorem exists_ok_of_alias_ite {c1 c2 : Prop} [Decidable c1] [Decidable c2]
    (e : String) :
    (∃ o : Objective,
        (if c1 then Except.ok Objective.MAX
          else if c2 then Except.ok Objective.MIN
          else Except.error e) = Except.ok o) ↔ (c1 ∨ c2) := by
  split_ifs <;> simp_all

/-- Claim C6: objective alias resolution succeeds, returning `MAX` or
`MIN`, iff the alias (lowercased first when it is a string) belongs to the
fixed MAX alias set or the fixed MIN alias set (checked in that order), or
is already an `Objective` (returned unchanged); every other alias yields
an error.  Being a pure Lean function, the resolution is deterministic and
side-effect free. -/
theorem construct_from_alias_characterization (a : PyVal) :
    ((∃ o, Objective.construct_from_alias a = Except.ok o) ↔
      ((∃ o, a = PyVal.obj o) ∨ a.lower ∈ Objective.MAX_ALIASES ∨
        a.lower ∈ Objective.MIN_ALIASES))
    ∧ (∀ o, a = PyVal.obj o → Objective.construct_from_alias a = Except.ok o)
    ∧ ((∀ o, a ≠ PyVal.obj o) → a.lower ∈ Objective.MAX_ALIASES →
        Objective.construct_from_alias a = Except.ok Objective.MAX)
    ∧ ((∀ o, a ≠ PyVal.obj o) → a.lower ∉ Objective.MAX_ALIASES →
        a.lower ∈ Objective.MIN_ALIASES →
        Objective.construct_from_alias a = Except.ok Objective.MIN)
    ∧ ((∀ o, a ≠ PyVal.obj o) → a.lower ∉ Objective.MAX_ALIASES →
        a.lower ∉ Objective.MIN_ALIASES →
        ∃ e, Objective.construct_from_alias a = Except.error e) := by
  cases a <;>
    simp only [Objective.construct_from_alias, PyVal.lower] <;>
    refine ⟨?_, ?_, ?_, ?_, ?_⟩ <;>
    first
      | (intros; simp_all; done)
      | (simp only [exists_ok_of_alias_ite]; simp)

/-- Witness for C6 at a concrete alias: the string "MAX" lowercases to
"max" and resolves to `Objective.MAX`. -/
theorem construct_from_alias_characterization_witness :
    Objective.construct_from_alias (PyVal.str "MAX") = Except.ok Objective.MAX := by
  refine (construct_from_alias_characterization (PyVal.str "MAX")).2.2.1 ?_ ?_
  · intro o
    simp
  · decide

/-- `_as_objective_array`: resolve each alias left to right; the first
failure raises (Python list-comprehension semantics). -/
def resolveAll : List PyVal → Except String (List Objective)
  | [] => Except.ok []
  | a :: rest =>
      match Objective.construct_from_alias a with
      | Except.error e => Except.error e
      | Except.ok o =>
          match resolveAll rest with
          | Except.error e => Except.error e
          | Except.ok os => Except.ok (o :: os)

/-- A pandas DataFrame with entries of type `α`, split into the cell grid,
the row index labels and the column labels. -/
structure DFrame (α : Type) where
  data : List (List α)
  index : List String
  columns : List String
deriving DecidableEq, Repr

/-- The `DecisionMatrix` value object of `skcriteria/data.py`: the
underlying dataframe (cell grid, alternative-label index, criteria-label
columns), the resolved objectives and the weights. -/
structure DecisionMatrix where
  data : List (List ℚ)
  index : List String
  columns : List String
  objectives : List Objective
  weights : List ℚ
deriving DecidableEq, Repr

/-- The attrs-generated constructor `DecisionMatrix(data_df, objectives,
weights)`: the converters run first (`_as_df` copies the frame,
`_as_objective_array` resolves every alias, `_as_float_array` copies the
weights), then `__attrs_post_init__` raises unless the objective count,
the weight count and the dataframe column count all coincide. -/
def DecisionMatrix.init (df : DFrame ℚ) (objectives : List PyVal)
    (weights : List ℚ) : Except String DecisionMatrix :=
  match resolveAll objectives with
  | Except.error e => Except.error e
  | Except.ok objs =>
      if objs.length = df.columns.length ∧ weights.length = df.columns.length then
        Except.ok ⟨df.data, df.index, df.columns, objs, weights⟩
      else
        Except.error
          "objectives and weights must have the same number of columns in data_df"

/-- An array-like argument for the `mtx` parameter: `twoD rows` is a
2-dimensional array-like (rows rectangular, as numpy guarantees for a 2-D
array) and `otherDim n` stands for an array-like of dimension `n ≠ 2`,
for which the tuple unpacking of `np.shape(mtx)` raises `ValueError`. -/
inductive PyMatrix where
  | twoD (rows : List (List ℚ))
  | otherDim (ndim : ℕ)

/-- `DecisionMatrix.from_mcda_data` (exported as the factory `mkdm`):
2-D shape check, defaulted or validated labels, all-ones default weights,
then the attrs constructor. -/
def DecisionMatrix.from_mcda_data (mtx : PyMatrix) (objectives : List PyVal)
    (weights : Option (List ℚ) := none) (anames : Option (List String) := none)
    (cnames : Option (List String) := none) : Except String DecisionMatrix :=
  match mtx with
  | .otherDim n =>
      Except.error ("mtx must have 2 dimensions, found " ++ toString n ++ " instead")
  | .twoD rows =>
      let a := rows.length
      let c := (rows.headD []).length
      let an := anames.getD ((List.range a).map (fun i => "A" ++ toString i))
      if an.length ≠ a then Except.error "anames must have a_number elements"
      else
        let cn := cnames.getD ((List.range c).map (fun i => "C" ++ toString i))
        if cn.length ≠ c then Except.error "cnames must have c_number elements"
        else
          let w := weights.getD (List.replicate c 1)
          DecisionMatrix.init ⟨rows, an, cn⟩ objectives w

/-- `mkdm = DecisionMatrix.from_mcda_data`. -/
def mkdm := @DecisionMatrix.from_mcda_data

/-- A cell of the summary dataframe built by `to_dataframe`: `np.vstack`
applied to `(objectives, weights, mtx)` yields an object-dtype array whose
cells are either `Objective` members (first row) or floats. -/
inductive Cell where
  | obj (o : Objective)
  | num (q : ℚ)
deriving DecidableEq, Repr

/-- Read a summary cell back as a numeric value (only `num` cells are read
this way by the round trip; the `obj` arm returns the enum value). -/
def Cell.toRat : Cell → ℚ
  | .num q => q
  | .obj o => (o.value : ℚ)

/-- Read a summary cell back as an objective alias (only `obj` cells are
read this way by the round trip; the `num` arm falls back to the numeric
alias given by the numerator). -/
def Cell.toAlias : Cell → PyVal
  | .obj o => PyVal.obj o
  | .num q => PyVal.int q.num

/-- `DecisionMatrix.to_dataframe`: stack the objectives row and the
weights row above the data, with index `["objectives", "weights"]`
followed by the alternative labels, and the criteria labels as columns. -/
def DecisionMatrix.to_dataframe (dm : DecisionMatrix) : DFrame Cell :=
  ⟨(dm.objectives.map Cell.obj) :: (dm.weights.map Cell.num)
      :: dm.data.map (fun r => r.map Cell.num),
    "objectives" :: "weights" :: dm.index,
    dm.columns⟩

/-- Modelled from the spec: the repository has no deserializer under src/;
spec §8 describes rebuilding "via make" from the `to_dataframe`
serialization — row 0 is read back as the objective aliases, row 1 as the
weights, the remaining rows as the matrix, and the index past the two
header rows as the alternative labels. -/
def DecisionMatrix.remake (df : DFrame Cell) : Except String DecisionMatrix :=
  DecisionMatrix.from_mcda_data
    (PyMatrix.twoD ((df.data.drop 2).map (fun r => r.map Cell.toRat)))
    ((df.data.headD []).map Cell.toAlias)
    (some (((df.data.drop 1).headD []).map Cell.toRat))
    (some (df.index.drop 2))
    (some df.columns)

/-- A Python operand of `DecisionMatrix.__eq__`: either another decision
matrix or a value of any other type (for which `isinstance` fails). -/
inductive PyOperand where
  | dm (d : DecisionMatrix)
  | other

/-- `DecisionMatrix.__eq__`: the `isinstance` check, then
`DataFrame.equals` on the data (cell values plus index and column labels;
all cells share the float dtype here), then `np.array_equal` on the
objectives and on the weights. -/
def DecisionMatrix.pyEq (a : DecisionMatrix) : PyOperand → Bool
  | .dm b =>
      decide (a.data = b.data) && decide (a.index = b.index)
        && decide (a.columns = b.columns)
        && decide (a.objectives = b.objectives)
        && decide (a.weights = b.weights)
  | .other => false

/-- `DecisionMatrix.copy`: re-invokes the attrs constructor on the same
dataframe, objectives and weights (the converters re-resolve the already
constructed `Objective` members). -/
def DecisionMatrix.copy (dm : DecisionMatrix) : Except String DecisionMatrix :=
  DecisionMatrix.init ⟨dm.data, dm.index, dm.columns⟩
    (dm.objectives.map PyVal.obj) dm.weights

/-- Helper: resolving already-constructed `Objective` members succeeds and
returns them unchanged (the `isinstance` early return). -/
theorem resolveAll_map_obj (os : List Objective) :
    resolveAll (os.map PyVal.obj) = Except.ok os := by
  induction os with
  | nil => rfl
  | cons o rest ih =>
      simp [resolveAll, Objective.construct_from_alias, ih]

/-- Helper: `resolveAll` preserves the list length on success. -/
theorem resolveAll_length {xs : List PyVal} {os : List Objective}
    (h : resolveAll xs = Except.ok os) : os.length = xs.length := by
  induction xs generalizing os with
  | nil =>
      simp [resolveAll] at h
      simp [← h]
  | cons a rest ih =>
      rw [resolveAll] at h
      cases hc : Objective.construct_from_alias a with
      | error e => rw [hc] at h; cases h
      | ok o =>
          rw [hc] at h
          cases hr : resolveAll rest with
          | error e => rw [hr] at h; cases h
          | ok os2 =>
              rw [hr] at h
              cases h
              simp [ih hr]

/-- Helper: everything the success of the attrs constructor
`DecisionMatrix.init` guarantees about the constructed value. -/
theorem init_ok_spec {df : DFrame ℚ} {objs : List PyVal} {w : List ℚ}
    {dm : DecisionMatrix} (h : DecisionMatrix.init df objs w = Except.ok dm) :
    dm.objectives.length = dm.columns.length ∧
      dm.weights.length = dm.columns.length ∧
      dm.data = df.data ∧ dm.index = df.index ∧ dm.columns = df.columns ∧
      dm.weights = w ∧ resolveAll objs = Except.ok dm.objectives := by
  rw [DecisionMatrix.init] at h
  split at h
  · cases h
  · next os hr =>
      by_cases hcond : (os.length = df.columns.length ∧ w.length = df.columns.length)
      · rw [if_pos hcond] at h
        cases h
        simpa using ⟨hcond.1, hcond.2, hr⟩
      · rw [if_neg hcond] at h
        cases h

/-- Claim C8: equality of two `DecisionMatrix` values holds iff their data
tables (cell values together with index and column labels), their
objective sequences and their weight sequences agree element-wise, and
comparison with an operand of any other type yields `false`. -/
theorem decisionMatrix_eq_characterization :
    (∀ a b : DecisionMatrix,
      (a.pyEq (PyOperand.dm b) = true ↔
        (a.data = b.data ∧ a.index = b.index ∧ a.columns = b.columns ∧
          a.objectives = b.objectives ∧ a.weights = b.weights)))
    ∧ ∀ a : DecisionMatrix, a.pyEq PyOperand.other = false := by
  constructor
  · intro a b
    simp [DecisionMatrix.pyEq, and_assoc]
  · intro a
    rfl

/-- Claim C10: for every decision matrix satisfying the constructor
invariant, `copy` succeeds and returns a decision matrix that is equal to
the original under the structural equality of `__eq__` (indeed the
identical value, so the original is unchanged by the call). -/
theorem decisionMatrix_copy_eq (dm : DecisionMatrix)
    (hobj : dm.objectives.length = dm.columns.length)
    (hw : dm.weights.length = dm.columns.length) :
    dm.copy = Except.ok dm ∧ dm.pyEq (PyOperand.dm dm) = true := by
  constructor
  · rw [DecisionMatrix.copy, DecisionMatrix.init, resolveAll_map_obj]
    simp [hobj, hw]
  · simp [DecisionMatrix.pyEq]

/-- Witness for C10 at a concrete decision matrix. -/
theorem decisionMatrix_copy_eq_witness :
    (DecisionMatrix.mk [[1, 2]] ["A0"] ["C0", "C1"]
        [Objective.MAX, Objective.MIN] [1, 1]).copy =
      Except.ok (DecisionMatrix.mk [[1, 2]] ["A0"] ["C0", "C1"]
        [Objective.MAX, Objective.MIN] [1, 1]) :=
  (decisionMatrix_copy_eq
    (DecisionMatrix.mk [[1, 2]] ["A0"] ["C0", "C1"]
      [Objective.MAX, Objective.MIN] [1, 1]) (by decide) (by decide)).1

/-- Claim C5: the factory `from_mcda_data`/`mkdm` fails for every input
matrix that is not exactly 2-dimensional; it fails whenever a supplied
alternative-label, criteria-label, objective or weight count disagrees
with the row/column counts inferred from the matrix; and on success the
invariant `len(objectives) = len(weights) = number of columns` holds. -/
theorem from_mcda_data_shape (objs : List PyVal) (w : Option (List ℚ))
    (an cn : Option (List String)) :
    (∀ n, ∃ e, DecisionMatrix.from_mcda_data (PyMatrix.otherDim n) objs w an cn
        = Except.error e)
    ∧ (∀ rows : List (List ℚ),
        ((∃ la, an = some la ∧ la.length ≠ rows.length) ∨
          (∃ lc, cn = some lc ∧ lc.length ≠ (rows.headD []).length) ∨
          (∃ lw, w = some lw ∧ lw.length ≠ (rows.headD []).length) ∨
          objs.length ≠ (rows.headD []).length) →
        ∃ e, DecisionMatrix.from_mcda_data (PyMatrix.twoD rows) objs w an cn
          = Except.error e)
    ∧ (∀ mtx dm,
        DecisionMatrix.from_mcda_data mtx objs w an cn = Except.ok dm →
        dm.objectives.length = dm.columns.length ∧
          dm.weights.length = dm.columns.length) := by
  refine ⟨fun n => ⟨_, rfl⟩, ?_, ?_⟩
  · intro rows hmis
    rw [DecisionMatrix.from_mcda_data]
    dsimp only
    split_ifs with ha hc
    · exact ⟨_, rfl⟩
    · exact ⟨_, rfl⟩
    · push_neg at ha hc
      rw [DecisionMatrix.init]
      cases hr : resolveAll objs with
      | error e => exact ⟨_, rfl⟩
      | ok os =>
          have hos : os.length = objs.length := resolveAll_length hr
          dsimp only
          rcases hmis with ⟨la, hla, hlen⟩ | ⟨lc, hlc, hlen⟩ | ⟨lw, hlw, hlen⟩ | hlen
          · rw [hla] at ha
            simp only [Option.getD_some] at ha
            exact absurd ha hlen
          · rw [hlc] at hc
            simp only [Option.getD_some] at hc
            exact absurd hc hlen
          · rw [if_neg]
            · exact ⟨_, rfl⟩
            · rintro ⟨-, h2⟩
              simp only [hlw, Option.getD_some] at h2
              exact hlen (h2.trans hc)
          · rw [if_neg]
            · exact ⟨_, rfl⟩
            · rintro ⟨h1, -⟩
              exact hlen ((hos.symm.trans h1).trans hc)
  · intro mtx dm hok
    cases mtx with
    | otherDim n => cases hok
    | twoD rows =>
        rw [DecisionMatrix.from_mcda_data] at hok
        dsimp only at hok
        split at hok
        · cases hok
        · split at hok
          · cases hok
          · exact ⟨(init_ok_spec hok).1, (init_ok_spec hok).2.1⟩

/-- Helper: a serialized numeric cell reads back to its value. -/
theorem toRat_num (q : ℚ) : (Cell.num q).toRat = q := rfl

/-- Helper: reading a serialized numeric row back yields the original
values. -/
theorem cell_num_toRat (l : List ℚ) : (l.map Cell.num).map Cell.toRat = l := by
  simp only [List.map_map]
  have h : Cell.toRat ∘ Cell.num = id := rfl
  rw [h, List.map_id]

/-- Helper: reading the serialized grid back yields the original grid. -/
theorem grid_roundtrip (g : List (List ℚ)) :
    (g.map (fun r => r.map Cell.num)).map (fun r => r.map Cell.toRat) = g := by
  simp [List.map_map, Function.comp_def, toRat_num]

/-- Helper: reading the serialized objectives row back yields the original
objectives as aliases. -/
theorem cell_obj_toAlias (os : List Objective) :
    (os.map Cell.obj).map Cell.toAlias = os.map PyVal.obj := by
  simp only [List.map_map]
  rfl

/-- Helper: everything the success of `from_mcda_data` on a 2-D input
guarantees about the constructed decision matrix. -/
theorem from_mcda_ok_spec {rows : List (List ℚ)} {objs : List PyVal}
    {w : Option (List ℚ)} {an cn : Option (List String)} {dm : DecisionMatrix}
    (h : DecisionMatrix.from_mcda_data (PyMatrix.twoD rows) objs w an cn
      = Except.ok dm) :
    dm.data = rows ∧ dm.index.length = rows.length ∧
      dm.columns.length = (rows.headD []).length ∧
      dm.objectives.length = dm.columns.length ∧
      dm.weights.length = dm.columns.length := by
  rw [DecisionMatrix.from_mcda_data] at h
  dsimp only at h
  split at h
  · cases h
  · next han =>
      split at h
      · cases h
      · next hcn =>
          push_neg at han hcn
          have hs := init_ok_spec h
          refine ⟨hs.2.2.1, ?_, ?_, hs.1, hs.2.1⟩
          · rw [hs.2.2.2.1]
            simpa using han
          · rw [hs.2.2.2.2.1]
            simpa using hcn

/-- Claim C7: for every valid (matrix, objectives, weights) input on which
the factory succeeds, serializing the resulting decision matrix with
`to_dataframe` (objectives row and weights row stacked above the data) and
rebuilding via make yields exactly the original decision matrix — in
particular its numeric matrix, weights and objective list are unchanged. -/
theorem to_dataframe_roundtrip (rows : List (List ℚ)) (objs : List PyVal)
    (w : Option (List ℚ)) (an cn : Option (List String)) (dm : DecisionMatrix)
    (hok : DecisionMatrix.from_mcda_data (PyMatrix.twoD rows) objs w an cn
      = Except.ok dm) :
    DecisionMatrix.remake dm.to_dataframe = Except.ok dm := by
  obtain ⟨hdata, hidx, hcols, hobj, hw⟩ := from_mcda_ok_spec hok
  rw [DecisionMatrix.remake, DecisionMatrix.to_dataframe]
  dsimp only
  simp only [List.drop_succ_cons, List.drop_zero, List.headD_cons,
    grid_roundtrip, cell_num_toRat, cell_obj_toAlias]
  rw [DecisionMatrix.from_mcda_data]
  dsimp only
  rw [if_neg (by simp [hidx, hdata]), if_neg (by simp [hcols, hdata])]
  rw [DecisionMatrix.init, resolveAll_map_obj]
  dsimp only [Option.getD_some]
  rw [if_pos ⟨hobj, hw⟩]

/-- Witness for C7 at a concrete valid triple. -/
theorem to_dataframe_roundtrip_witness :
    DecisionMatrix.remake (DecisionMatrix.to_dataframe
        (DecisionMatrix.mk [[1, 2]] ["r"] ["c", "d"]
          [Objective.MAX, Objective.MAX] [1, 1]))
      = Except.ok (DecisionMatrix.mk [[1, 2]] ["r"] ["c", "d"]
          [Objective.MAX, Objective.MAX] [1, 1]) :=
  to_dataframe_roundtrip [[1, 2]] [PyVal.str "max", PyVal.str "max"]
    (some [1, 1]) (some ["r"]) (some ["c", "d"])
    (DecisionMatrix.mk [[1, 2]] ["r"] ["c", "d"]
      [Objective.MAX, Objective.MAX] [1, 1]) (by rfl)

/-- Witness for C5: a supplied alternative-label list of the wrong length
makes the factory fail on a concrete 1×1 matrix. -/
theorem from_mcda_data_shape_witness :
    ∃ e, DecisionMatrix.from_mcda_data (PyMatrix.twoD [[1]]) [PyVal.str "max"]
        none (some ["x", "y"]) none = Except.error e :=
  (from_mcda_data_shape [PyVal.str "max"] none (some ["x", "y"]) none).2.1 [[1]]
    (Or.inl ⟨["x", "y"], rfl, by decide⟩)

/-- The strict order imposed on alternatives by a score vector: `j` is
ordered before `i` when its score is strictly better (greater for
`rev = true`, the descending sort; smaller for `rev = false`), or on equal
scores when `j` occurs first (the stable tie-break by original
position). -/
def beats {n : ℕ} : Bool → (Fin n → ℚ) → Fin n → Fin n → Prop
  | true, s, j, i => s i < s j ∨ (s j = s i ∧ j < i)
  | false, s, j, i => s j < s i ∨ (s j = s i ∧ j < i)

instance beatsDecidable {n : ℕ} (rev : Bool) (s : Fin n → ℚ) (j i : Fin n) :
    Decidable (beats rev s j i) := by
  cases rev
  · exact inferInstanceAs (Decidable (s j < s i ∨ (s j = s i ∧ j < i)))
  · exact inferInstanceAs (Decidable (s i < s j ∨ (s j = s i ∧ j < i)))

/-- Modelled from the spec: `skcriteria.utils.rank.rank_values` is not
under src/ (only its callers in `madm/simple.py` are).  Per spec §3/§4.4,
ranking converts scores to ranks via a stable descending (for
`reverse = True`) or ascending sort; equal scores receive distinct
consecutive ranks broken by original alternative order, and rank 1 is
best.  Equivalently, the rank of alternative `i` is one plus the number of
alternatives ordered strictly before it. -/
def rank_values {n : ℕ} (s : Fin n → ℚ) (rev : Bool) (i : Fin n) : ℕ :=
  1 + (Finset.univ.filter (fun j => beats rev s j i)).card

/-- Helper: no alternative is ordered before itself. -/
theorem beats_irrefl {n : ℕ} (rev : Bool) (s : Fin n → ℚ) (i : Fin n) :
    ¬ beats rev s i i := by
  cases rev <;> simp [beats]

/-- Helper: the order on alternatives is transitive. -/
theorem beats_trans {n : ℕ} {rev : Bool} {s : Fin n → ℚ} {k j i : Fin n}
    (h1 : beats rev s k j) (h2 : beats rev s j i) : beats rev s k i := by
  cases rev <;>
    simp only [beats] at h1 h2 ⊢ <;>
    rcases h1 with h1 | ⟨h1e, h1l⟩ <;>
    rcases h2 with h2 | ⟨h2e, h2l⟩ <;>
    first
      | (left; linarith)
      | (right; exact ⟨by linarith, h1l.trans h2l⟩)

/-- Helper: the order on alternatives is total. -/
theorem beats_total {n : ℕ} (rev : Bool) (s : Fin n → ℚ) {i j : Fin n}
    (hne : i ≠ j) : beats rev s i j ∨ beats rev s j i := by
  have hij := lt_or_gt_of_ne hne
  cases rev <;>
    simp only [beats] <;>
    rcases lt_trichotomy (s i) (s j) with h | h | h <;>
    rcases hij with hl | hl <;>
    tauto

/-- Helper: an alternative ordered before another has a strictly smaller
(better) rank. -/
theorem rank_values_lt_of_beats {n : ℕ} {rev : Bool} {s : Fin n → ℚ}
    {i j : Fin n} (h : beats rev s i j) :
    rank_values s rev i < rank_values s rev j := by
  have hsub : Finset.univ.filter (fun k => beats rev s k i) ⊆
      Finset.univ.filter (fun k => beats rev s k j) := by
    intro k hk
    simp only [Finset.mem_filter, Finset.mem_univ, true_and] at hk ⊢
    exact beats_trans hk h
  have hss : Finset.univ.filter (fun k => beats rev s k i) ⊂
      Finset.univ.filter (fun k => beats rev s k j) :=
    (Finset.ssubset_iff_of_subset hsub).mpr
      ⟨i, by simp [h], by simp [beats_irrefl]⟩
  exact Nat.add_lt_add_left (Finset.card_lt_card hss) 1

/-- Helper: ranks are injective — no two alternatives share a rank. -/
theorem rank_values_injective {n : ℕ} (s : Fin n → ℚ) (rev : Bool) :
    Function.Injective (rank_values s rev) := by
  intro i j hij
  by_contra hne
  rcases beats_total rev s hne with h | h
  · exact absurd hij (Nat.ne_of_lt (rank_values_lt_of_beats h))
  · exact absurd hij.symm (Nat.ne_of_lt (rank_values_lt_of_beats h))

/-- Helper: every rank is at least 1. -/
theorem rank_values_ge_one {n : ℕ} (s : Fin n → ℚ) (rev : Bool) (i : Fin n) :
    1 ≤ rank_values s rev i :=
  Nat.le_add_right 1 _

/-- Helper: every rank is at most the number of alternatives. -/
theorem rank_values_le {n : ℕ} (s : Fin n → ℚ) (rev : Bool) (i : Fin n) :
    rank_values s rev i ≤ n := by
  have hsub : Finset.univ.filter (fun k => beats rev s k i) ⊆
      Finset.univ.erase i := by
    intro k hk
    simp only [Finset.mem_filter, Finset.mem_univ, true_and] at hk
    refine Finset.mem_erase.mpr ⟨?_, Finset.mem_univ k⟩
    rintro rfl
    exact beats_irrefl rev s _ hk
  have hcard := Finset.card_le_card hsub
  rw [Finset.card_erase_of_mem (Finset.mem_univ i), Finset.card_univ,
    Fintype.card_fin] at hcard
  have hn : 0 < n := i.pos
  unfold rank_values
  omega

/-- Helper: every value in `[1, n]` is attained by some rank. -/
theorem rank_values_surj {n : ℕ} (s : Fin n → ℚ) (rev : Bool) {m : ℕ}
    (h1 : 1 ≤ m) (hn : m ≤ n) : ∃ i, rank_values s rev i = m := by
  have hn0 : 0 < n := Nat.lt_of_lt_of_le (Nat.lt_of_lt_of_le Nat.zero_lt_one h1) hn
  have hinj : Function.Injective (fun i : Fin n =>
      (⟨rank_values s rev i - 1, by
        have h2 := rank_values_le s rev i
        have h3 := rank_values_ge_one s rev i
        omega⟩ : Fin n)) := by
    intro x y hxy
    apply rank_values_injective s rev
    have hx := rank_values_ge_one s rev x
    have hy := rank_values_ge_one s rev y
    have hv := congrArg Fin.val hxy
    simp only at hv
    omega
  obtain ⟨i, hi⟩ := Finite.injective_iff_surjective.mp hinj ⟨m - 1, by omega⟩
  refine ⟨i, ?_⟩
  have hv := congrArg Fin.val hi
  simp only at hv
  have h3 := rank_values_ge_one s rev i
  omega

/-- Helper: an alternative whose rank is 1 has a maximal score under the
descending (`reverse = True`) ordering. -/
theorem rank_values_eq_one_max {n : ℕ} (s : Fin n → ℚ) {i : Fin n}
    (h : rank_values s true i = 1) : ∀ k, s k ≤ s i := by
  intro k
  by_contra hk
  push_neg at hk
  have hmem : k ∈ Finset.univ.filter (fun j => beats true s j i) := by
    simp only [Finset.mem_filter, Finset.mem_univ, true_and]
    exact Or.inl hk
  unfold rank_values at h
  have hzero : (Finset.univ.filter (fun j => beats true s j i)).card = 0 := by
    omega
  rw [Finset.card_eq_zero] at hzero
  rw [hzero] at hmem
  exact absurd hmem (Finset.not_mem_empty k)

/-- Helper: the four rank-sequence properties of `rank_values` claimed by
the spec, for any score vector: injectivity, range containment in
`[1, n]`, surjectivity onto `[1, n]`, and the deterministic positional
tie-break on equal scores. -/
theorem rank_values_perm {n : ℕ} (s : Fin n → ℚ) (rev : Bool) :
    Function.Injective (rank_values s rev)
    ∧ (∀ i, rank_values s rev i ∈ Finset.Icc 1 n)
    ∧ (∀ m ∈ Finset.Icc 1 n, ∃ i, rank_values s rev i = m)
    ∧ ∀ i k, s i = s k → i < k →
        rank_values s rev i < rank_values s rev k := by
  refine ⟨rank_values_injective s rev, ?_, ?_, ?_⟩
  · intro i
    exact Finset.mem_Icc.mpr ⟨rank_values_ge_one s rev i, rank_values_le s rev i⟩
  · intro m hm
    obtain ⟨h1, hn⟩ := Finset.mem_Icc.mp hm
    exact rank_values_surj s rev h1 hn
  · intro i k heq hik
    refine rank_values_lt_of_beats ?_
    cases rev
    · exact Or.inr ⟨heq, hik⟩
    · exact Or.inr ⟨heq, hik⟩

/-- `wsm(matrix, weights)` from `skcriteria/madm/simple.py`: the score of
each alternative is the inner product of its row with the weights
(`np.inner`), and the ranking is `rank.rank_values(score, reverse=True)`. -/
def wsm {a c : ℕ} (matrix : Fin a → Fin c → ℚ) (weights : Fin c → ℚ) :
    (Fin a → ℕ) × (Fin a → ℚ) :=
  (rank_values (fun i => ∑ j, matrix i j * weights j) true,
    fun i => ∑ j, matrix i j * weights j)

/-- `wpm(matrix, weights)`: the base-10 logarithm of every entry, scaled
elementwise by the weights (`np.multiply`) and summed per row; `lg`
abstracts the transcendental `np.log10`, about which only the summation
structure is claimed. -/
def wpm {a c : ℕ} (lg : ℚ → ℚ) (matrix : Fin a → Fin c → ℚ)
    (weights : Fin c → ℚ) : (Fin a → ℕ) × (Fin a → ℚ) :=
  (rank_values (fun i => ∑ j, lg (matrix i j) * weights j) true,
    fun i => ∑ j, lg (matrix i j) * weights j)

/-- `WeightedSumModel._evaluate_data`: raises when any objective code is
`Objective.MIN.value`, otherwise delegates to `wsm`. -/
def wsmEvaluateData {a c : ℕ} (matrix : Fin a → Fin c → ℚ)
    (weights : Fin c → ℚ) (objectives : Fin c → Int) :
    Except String ((Fin a → ℕ) × (Fin a → ℚ)) :=
  if ∃ j, objectives j = Objective.MIN.value then
    Except.error "WeightedSumModel cannot operate with minimize objective"
  else Except.ok (wsm matrix weights)

/-- `WeightedProductModel._evaluate_data`: raises when any objective code
is `Objective.MIN.value`, then when any matrix entry is `≤ 0`
(`np.any(matrix <= 0)`), otherwise delegates to `wpm`. -/
def wpmEvaluateData {a c : ℕ} (lg : ℚ → ℚ) (matrix : Fin a → Fin c → ℚ)
    (weights : Fin c → ℚ) (objectives : Fin c → Int) :
    Except String ((Fin a → ℕ) × (Fin a → ℚ)) :=
  if ∃ j, objectives j = Objective.MIN.value then
    Except.error "WeightedProductModel cannot operate with minimize objective"
  else if ∃ i, ∃ j, matrix i j ≤ 0 then
    Except.error "WeightedProductModel cannot operate with values <= 0"
  else Except.ok (wpm lg matrix weights)

/-- Claim C1: on a decision matrix whose objectives are all MAX and with
at least one alternative, WeightedSumModel succeeds; the score of
alternative `i` is `Σ_j w_j·x_ij`; a strictly higher score receives a
strictly smaller (better) rank; and an alternative of maximal score has
rank 1. -/
theorem weightedSumModel_correct {a c : ℕ} (matrix : Fin a → Fin c → ℚ)
    (weights : Fin c → ℚ) (objectives : Fin c → Int)
    (hmax : ∀ j, objectives j = Objective.MAX.value) (ha : 0 < a) :
    ∃ rnk score,
      wsmEvaluateData matrix weights objectives = Except.ok (rnk, score)
      ∧ (∀ i, score i = ∑ j, weights j * matrix i j)
      ∧ (∀ i k, score k < score i → rnk i < rnk k)
      ∧ ∃ i, (∀ k, score k ≤ score i) ∧ rnk i = 1 := by
  refine ⟨(wsm matrix weights).1, (wsm matrix weights).2, ?_, ?_, ?_, ?_⟩
  · rw [wsmEvaluateData, if_neg]
    rintro ⟨j, hj⟩
    rw [hmax j] at hj
    exact absurd hj (by decide)
  · intro i
    show (∑ j, matrix i j * weights j) = ∑ j, weights j * matrix i j
    exact Finset.sum_congr rfl fun j _ => mul_comm _ _
  · intro i k h
    exact rank_values_lt_of_beats (Or.inl h)
  · obtain ⟨i, hi⟩ :=
      rank_values_surj (fun i => ∑ j, matrix i j * weights j) true le_rfl ha
    exact ⟨i, rank_values_eq_one_max _ hi, hi⟩

/-- Witness for C1 on a concrete 2×1 all-MAX matrix: evaluation succeeds
and a maximal-score alternative receives rank 1. -/
theorem weightedSumModel_correct_witness :
    ∃ rnk score,
      wsmEvaluateData (fun i : Fin 2 => fun _ : Fin 1 => ((i : ℕ) : ℚ))
          (fun _ => 1) (fun _ => Objective.MAX.value)
        = Except.ok (rnk, score)
      ∧ ∃ i, (∀ k, score k ≤ score i) ∧ rnk i = 1 := by
  obtain ⟨rnk, score, h1, -, -, h4⟩ :=
    weightedSumModel_correct (fun i : Fin 2 => fun _ : Fin 1 => ((i : ℕ) : ℚ))
      (fun _ => 1) (fun _ => Objective.MAX.value) (fun _ => rfl) (by decide)
  exact ⟨rnk, score, h1, h4⟩

/-- Claim C2: on a decision matrix whose objectives are all MAX,
WeightedProductModel fails iff some matrix entry is ≤ 0; when every entry
is positive it succeeds, the score of alternative `i` is
`Σ_j w_j·log10(x_ij)` (for the abstract `log10`), and a strictly higher
score receives a strictly smaller (better) rank. -/
theorem weightedProductModel_correct {a c : ℕ} (lg : ℚ → ℚ)
    (matrix : Fin a → Fin c → ℚ) (weights : Fin c → ℚ)
    (objectives : Fin c → Int)
    (hmax : ∀ j, objectives j = Objective.MAX.value) :
    ((∃ e, wpmEvaluateData lg matrix weights objectives = Except.error e) ↔
      ∃ i j, matrix i j ≤ 0)
    ∧ ((∀ i j, 0 < matrix i j) →
        ∃ rnk score,
          wpmEvaluateData lg matrix weights objectives = Except.ok (rnk, score)
          ∧ (∀ i, score i = ∑ j, weights j * lg (matrix i j))
          ∧ (∀ i k, score k < score i → rnk i < rnk k)) := by
  have hnomin : ¬ ∃ j, objectives j = Objective.MIN.value := by
    rintro ⟨j, hj⟩
    rw [hmax j] at hj
    exact absurd hj (by decide)
  constructor
  · rw [wpmEvaluateData, if_neg hnomin]
    constructor
    · rintro ⟨e, he⟩
      by_contra hpos
      rw [if_neg hpos] at he
      cases he
    · intro hnp
      rw [if_pos hnp]
      exact ⟨_, rfl⟩
  · intro hpos
    refine ⟨(wpm lg matrix weights).1, (wpm lg matrix weights).2, ?_, ?_, ?_⟩
    · rw [wpmEvaluateData, if_neg hnomin, if_neg]
      rintro ⟨i, j, hij⟩
      exact absurd (hpos i j) (not_lt.mpr hij)
    · intro i
      show (∑ j, lg (matrix i j) * weights j) = ∑ j, weights j * lg (matrix i j)
      exact Finset.sum_congr rfl fun j _ => mul_comm _ _
    · intro i k h
      exact rank_values_lt_of_beats (Or.inl h)

/-- Witness for C2 on a concrete 1×1 all-MAX matrix containing a zero
entry, using the identity as the abstract logarithm: evaluation fails. -/
theorem weightedProductModel_correct_witness :
    ∃ e, wpmEvaluateData (fun q => q)
        (fun _ : Fin 1 => fun _ : Fin 1 => (0 : ℚ))
        (fun _ => 1) (fun _ => Objective.MAX.value) = Except.error e :=
  ((weightedProductModel_correct (fun q => q)
      (fun _ : Fin 1 => fun _ : Fin 1 => (0 : ℚ)) (fun _ => 1)
      (fun _ => Objective.MAX.value) (fun _ => rfl)).1).mpr
    ⟨0, 0, le_refl 0⟩

/-- Claim C3: whenever some objective is MIN, both WeightedSumModel and
WeightedProductModel fail with an error, whatever the matrix values — a
MIN objective is never silently coerced or ignored. -/
theorem min_objective_rejected {a c : ℕ} (lg : ℚ → ℚ)
    (matrix : Fin a → Fin c → ℚ) (weights : Fin c → ℚ)
    (objectives : Fin c → Int)
    (hmin : ∃ j, objectives j = Objective.MIN.value) :
    (∃ e, wsmEvaluateData matrix weights objectives = Except.error e)
    ∧ ∃ e, wpmEvaluateData lg matrix weights objectives = Except.error e := by
  constructor
  · rw [wsmEvaluateData, if_pos hmin]
    exact ⟨_, rfl⟩
  · rw [wpmEvaluateData, if_pos hmin]
    exact ⟨_, rfl⟩

/-- Witness for C3 on a concrete 1×1 matrix with a MIN objective. -/
theorem min_objective_rejected_witness :
    (∃ e, wsmEvaluateData (fun _ : Fin 1 => fun _ : Fin 1 => (1 : ℚ))
        (fun _ => 1) (fun _ => Objective.MIN.value) = Except.error e)
    ∧ ∃ e, wpmEvaluateData (fun q => q)
        (fun _ : Fin 1 => fun _ : Fin 1 => (1 : ℚ))
        (fun _ => 1) (fun _ => Objective.MIN.value) = Except.error e :=
  min_objective_rejected (fun q => q)
    (fun _ : Fin 1 => fun _ : Fin 1 => (1 : ℚ)) (fun _ => 1)
    (fun _ => Objective.MIN.value) ⟨⟨0, by decide⟩, rfl⟩

/-- Claim C4: the rank sequences produced by `wsm` and by `wpm` are
permutations of 1..A — each rank lies in `[1, A]`, no two alternatives
share a rank, and every value in `[1, A]` is attained — and alternatives
with equal scores still receive distinct ranks, broken deterministically
in favour of the earlier original position by the stable sort. -/
theorem rank_permutation {a c : ℕ} (lg : ℚ → ℚ)
    (matrix : Fin a → Fin c → ℚ) (weights : Fin c → ℚ) :
    (Function.Injective (wsm matrix weights).1
      ∧ (∀ i, (wsm matrix weights).1 i ∈ Finset.Icc 1 a)
      ∧ (∀ m ∈ Finset.Icc 1 a, ∃ i, (wsm matrix weights).1 i = m)
      ∧ ∀ i k, (wsm matrix weights).2 i = (wsm matrix weights).2 k → i < k →
          (wsm matrix weights).1 i < (wsm matrix weights).1 k)
    ∧ (Function.Injective (wpm lg matrix weights).1
      ∧ (∀ i, (wpm lg matrix weights).1 i ∈ Finset.Icc 1 a)
      ∧ (∀ m ∈ Finset.Icc 1 a, ∃ i, (wpm lg matrix weights).1 i = m)
      ∧ ∀ i k, (wpm lg matrix weights).2 i = (wpm lg matrix weights).2 k →
          i < k → (wpm lg matrix weights).1 i < (wpm lg matrix weights).1 k) :=
  ⟨rank_values_perm (fun i => ∑ j, matrix i j * weights j) true,
    rank_values_perm (fun i => ∑ j, lg (matrix i j) * weights j) true⟩

/-- Witness for C4 on a concrete 2×1 matrix with equal scores: rank 1 is
attained, and the tie between the two equal-scored alternatives is broken
in favour of the first. -/
theorem rank_permutation_witness :
    (∃ i, (wsm (fun _ : Fin 2 => fun _ : Fin 1 => (3 : ℚ)) (fun _ => 1)).1 i = 1)
    ∧ (wsm (fun _ : Fin 2 => fun _ : Fin 1 => (3 : ℚ)) (fun _ => 1)).1 ⟨0, by omega⟩
        < (wsm (fun _ : Fin 2 => fun _ : Fin 1 => (3 : ℚ)) (fun _ => 1)).1
            ⟨1, by omega⟩ :=
  ⟨(rank_permutation (fun q => q) (fun _ : Fin 2 => fun _ : Fin 1 => (3 : ℚ))
      (fun _ => 1)).1.2.2.1 1 (by decide),
    (rank_permutation (fun q => q) (fun _ : Fin 2 => fun _ : Fin 1 => (3 : ℚ))
      (fun _ => 1)).1.2.2.2 ⟨0, by omega⟩ ⟨1, by omega⟩ rfl (by decide)⟩
